import Mathlib

/-!
Shallow embedding of `src/src/bin/merge.rs` from the qbittorrent-merger
repository, together with theorems checking the specification's claims
about its piece arithmetic and its per-piece recovery loop.

Modelling conventions:

* Machine integers (`u64`, `usize`) are modelled as `Nat`.  The quantities
  involved are byte offsets and piece counts; every subtraction performed
  by the source is guarded (`offset -= f.size` only when `offset >= f.size`,
  `dst.offset - virt.offset` only after a containment check), so `Nat`
  subtraction agrees with the source on all reachable inputs.
* `piece_size` stands for `torrent.properties.piece_size.unwrap()`.  The
  external client reports a positive piece size (spec data-model
  invariant: "piece_size: positive integer"), and the Rust code would
  panic on division by zero for a zero piece size, so the theorems about
  the division-based mappers carry an explicit `0 < piece_size` hypothesis.
* Fallible Rust functions returning `Result<_, Box<dyn Error>>` become
  `Except String _`; a Rust panic (`unwrap`, `expect`, `panic`, slice
  indexing out of bounds) inside the recovery loop is modelled as an
  `Except.error` outcome of the whole loop-body function `merge_step`,
  i.e. as an abort of the run.
* SHA-1 (the external `sha1` crate) is kept abstract: `merge_step` takes
  the digest function as a parameter and only ever compares digests for
  equality, exactly as the source does.
* File I/O is modelled by an explicit read-only view of the file system
  (`FS`): `fs.files name` is the content of the file that
  `get_read_file` would open for `name` (`none` when opening fails), and
  `fs.writable name` says whether `get_write_file`/`write_piece` succeed.
-/

namespace QbtMerge

/-- Per-piece download state as reported by the external client
(the qbit_rs `PieceState`); the merger only ever distinguishes
`Downloaded` from everything else. -/
inductive PieceState where
  | Downloaded
  | NotDownloaded
  | Checking
  | Other
  deriving DecidableEq, Repr

/-- One entry of a torrent's ordered content list: a file name and its
size in bytes (the `name` and `size` fields of `TorrentContent` that
merge.rs uses). -/
structure TorrentContent where
  name : String
  size : Nat
  deriving DecidableEq, Repr

/-- A 20-byte SHA-1 digest (`[u8; 20]`), modelled as a list of bytes. -/
abbrev Digest := List Nat

/-- The `Torrent` snapshot of merge.rs, restricted to the fields the
recovery algorithm reads: `properties.piece_size.unwrap()`, the ordered
`content` list, `pieces_states` and `pieces_hashes`. -/
structure Torrent where
  piece_size : Nat
  content : List TorrentContent
  pieces_states : List PieceState
  pieces_hashes : List Digest
  deriving Repr

/-- `FileBlock`: a byte range relative to the start of one named file. -/
structure FileBlock where
  offset : Nat
  size : Nat
  deriving DecidableEq, Repr

/-- `FileBlock::contains`:
`self.offset <= other.offset && self.offset + self.size >= other.offset + other.size`. -/
def FileBlock.contains (a b : FileBlock) : Bool :=
  decide (a.offset ≤ b.offset) && decide (a.offset + a.size ≥ b.offset + b.size)

/-- `VirtualPiece`: a synthetic byte range in torrent-logical-stream
coordinates (fields `offset` and `piece_size` as in the source). -/
structure VirtualPiece where
  offset : Nat
  piece_size : Nat
  deriving DecidableEq, Repr

/-- `TorrentPiece`: a physical piece, identified by its index, carrying
its torrent's piece size. -/
structure TorrentPiece where
  idx : Nat
  piece_size : Nat
  deriving DecidableEq, Repr

/-- The `Piece` enum of merge.rs. -/
inductive Piece where
  | VirtualPiece (p : VirtualPiece)
  | TorrentPiece (p : TorrentPiece)
  deriving DecidableEq, Repr

/-- `Torrent::piece_is_downloaded`: look the piece's index up in
`pieces_states` via `get` (returning `false` when out of range) and
return whether the state is `Downloaded`. -/
def Torrent.piece_is_downloaded (t : Torrent) (piece : TorrentPiece) : Bool :=
  match t.pieces_states.get? piece.idx with
  | none => false
  | some PieceState.Downloaded => true
  | some _ => false

/-- `TorrentPiece::merge`: `list.get(0)?` then build a `VirtualPiece`
with `offset = first.idx * first.piece_size` and
`piece_size = list.len() * first.piece_size`. -/
def TorrentPiece.merge (list : List TorrentPiece) : Option VirtualPiece :=
  match list.get? 0 with
  | none => none
  | some first_piece =>
      some ⟨first_piece.idx * first_piece.piece_size,
            list.length * first_piece.piece_size⟩

/-- The file-list walk shared by both arms of `piece_to_file_block`:
scan the content list in order, returning the first file in which the
running offset falls (`offset < f.size`), otherwise subtracting the
file's size and continuing; error when the list is exhausted. -/
def walk_files (files : List TorrentContent) (offset size : Nat) :
    Except String (String × FileBlock) :=
  match files with
  | [] => .error "Piece outside of torrent"
  | f :: rest =>
      if offset < f.size then .ok (f.name, ⟨offset, size⟩)
      else walk_files rest (offset - f.size) size

/-- `piece_to_file_block`: the starting logical offset is
`idx * piece_size` for a physical piece and `offset` for a virtual one;
both arms then perform the same file-list walk. -/
def piece_to_file_block (torrent : Torrent) (piece : Piece) :
    Except String (String × FileBlock) :=
  match piece with
  | .TorrentPiece p => walk_files torrent.content (p.idx * p.piece_size) p.piece_size
  | .VirtualPiece p => walk_files torrent.content p.offset p.piece_size

/-- `u64::div_ceil` for a positive divisor: `(a + b - 1) / b` is the
ceiling of `a / b` when `0 < b` (the source never divides by zero on
reachable inputs, see the module comment). -/
def div_ceil (a b : Nat) : Nat := (a + b - 1) / b

/-- The recursion inside `file_block_to_pieces`: scan the content list,
accumulating preceding file sizes in `offset`, until the first file
whose name matches `path`; then check the block offset against the file
size and produce the piece range
`[(offset + fb.offset) / piece_size, div_ceil (offset + fb.offset + fb.size) piece_size)`. -/
def file_block_to_pieces_go (piece_size : Nat) (files : List TorrentContent)
    (path : String) (fb : FileBlock) (offset : Nat) :
    Except String (List TorrentPiece) :=
  match files with
  | [] => .error ("File not found " ++ path)
  | f :: rest =>
      if f.name = path then
        if fb.offset > f.size then
          .error ("Offset beyond file " ++ toString fb.offset ++ " " ++ path)
        else
          let o := offset + fb.offset
          let start_idx := o / piece_size
          let end_idx := div_ceil (o + fb.size) piece_size
          .ok ((List.range' start_idx (end_idx - start_idx)).map
                (fun idx => ⟨idx, piece_size⟩))
      else file_block_to_pieces_go piece_size rest path fb (offset + f.size)

/-- `file_block_to_pieces`: uses the torrent's `piece_size` and walks
the torrent's content list starting from accumulated offset 0. -/
def file_block_to_pieces (torrent : Torrent) (path : String) (fb : FileBlock) :
    Except String (List TorrentPiece) :=
  file_block_to_pieces_go torrent.piece_size torrent.content path fb 0

/-- `get_file_offset`: sum of the sizes of the files strictly before the
first file named `path`; error when no file matches. -/
def get_file_offset (torrent_content : List TorrentContent) (path : String) :
    Except String Nat :=
  match torrent_content with
  | [] => .error ("File not found: " ++ path)
  | f :: rest =>
      if f.name = path then .ok 0
      else (get_file_offset rest path).map (fun o => f.size + o)

/-- `convert_filename`: scan the matched-size groups; if `filename`
occurs in the first component return the head of the second, and vice
versa.  (`list_b[0]` in the source would panic on an empty group;
`find_same_size_files` never produces one, and no theorem below
instantiates an empty group, so the head is taken with a default.) -/
def convert_filename (same_files : List (List String × List String))
    (filename : String) : Except String String :=
  match same_files with
  | [] => .error ("File not found " ++ filename)
  | (list_a, list_b) :: rest =>
      if list_a.contains filename then .ok (list_b.headD "")
      else if list_b.contains filename then .ok (list_a.headD "")
      else convert_filename rest filename

/-- `get_missing_pieces`: `starting_idx = file_offset / piece_size`,
`n_pieces = file_size / piece_size`, `last_idx = starting_idx + n_pieces`,
then keep every enumerated index of `pieces_states` with
`starting_idx ≤ idx ≤ last_idx` whose state is not `Downloaded`.
(The source unwraps the file lookup; the claims only concern names that
are present in the content list, where the defaults below are not used.) -/
def get_missing_pieces (torrent : Torrent) (path : String) : List Nat :=
  let piece_size := torrent.piece_size
  let offset := (get_file_offset torrent.content path).toOption.getD 0
  let starting_idx := offset / piece_size
  let file_size :=
    ((torrent.content.find? (fun f => f.name == path)).map (fun f => f.size)).getD 0
  let n_pieces := file_size / piece_size
  let last_idx := starting_idx + n_pieces
  torrent.pieces_states.enum.filterMap
    (fun p =>
      if starting_idx ≤ p.1 ∧ p.1 ≤ last_idx ∧ p.2 ≠ PieceState.Downloaded
      then some p.1 else none)

/-- `read_piece`: seek to `fb.offset` and `read_exact` `fb.size` bytes;
a short read (the range does not fit in the file) is an error. -/
def read_piece (data : List Nat) (fb : FileBlock) : Except String (List Nat) :=
  if fb.offset + fb.size ≤ data.length then
    .ok ((data.drop fb.offset).take fb.size)
  else .error "failed to fill whole buffer"

/-- Rust slice indexing `&data[a..b]`: defined when `a ≤ b ≤ data.len()`,
a panic (modelled as `none`) otherwise. -/
def slice (data : List Nat) (a b : Nat) : Option (List Nat) :=
  if a ≤ b ∧ b ≤ data.length then some ((data.drop a).take (b - a)) else none

/-- The file-system view seen by one `merge_torrents` run:
`files name` is the content behind `get_read_file`/`read_piece` for
`name` (`none` when opening for read fails), `writable name` says
whether `get_write_file` and `write_piece` succeed for `name`. -/
structure FS where
  files : String → Option (List Nat)
  writable : String → Bool

/-- Net effect of one iteration of the `'missing_pieces_loop` body that
did not abort: the deltas of the three run counters, whether a file read
was performed, and the write that was performed, if any. -/
structure StepResult where
  restored : Nat
  unavailable : Nat
  data_outside_file_block : Nat
  readPerformed : Bool
  written : Option (String × FileBlock × List Nat)
  deriving DecidableEq, Repr

/-- The body of `'missing_pieces_loop` in `merge_torrents`, for one
`missing_piece_idx`.  `Except.error` models a panic (a `.unwrap()`,
`.expect(..)`, `panic!` or out-of-bounds indexing), which aborts the
whole run; `.ok` models reaching the loop's next iteration, carrying the
iteration's net effect.  `dst_filename` is the outer loop's
`&same_file.1[0]`, the name the destination write is addressed to. -/
def merge_step (sha1 : List Nat → Digest) (fs : FS)
    (src_torrent dst_torrent : Torrent)
    (same_files : List (List String × List String)) (dst_filename : String)
    (missing_piece_idx : Nat) : Except String StepResult :=
  let dst_piece : TorrentPiece := ⟨missing_piece_idx, dst_torrent.piece_size⟩
  match dst_torrent.pieces_hashes.get? dst_piece.idx with
  | none => .error "index out of bounds: pieces_hashes"
  | some missing_hash =>
  match piece_to_file_block dst_torrent (.TorrentPiece dst_piece) with
  | .error e => .error e
  | .ok (filename, dst_file_block) =>
  match convert_filename same_files filename with
  | .error _ => .ok ⟨0, 0, 0, false, none⟩
  | .ok src_filename =>
  match file_block_to_pieces src_torrent src_filename dst_file_block with
  | .error e => .error e
  | .ok src_pieces =>
  if src_pieces.any (fun p => ! src_torrent.piece_is_downloaded p) then
    .ok ⟨0, 1, 0, false, none⟩
  else
  match fs.files src_filename with
  | none => .error ("Can not open file " ++ src_filename)
  | some src_data =>
  match TorrentPiece.merge src_pieces with
  | none => .error "merge of empty piece list"
  | some virt_src_piece =>
  match piece_to_file_block src_torrent (.VirtualPiece virt_src_piece) with
  | .error e => .error e
  | .ok (_, virt_src_file_block) =>
  if ! virt_src_file_block.contains dst_file_block then
    .ok ⟨0, 0, 1, false, none⟩
  else
  match read_piece src_data virt_src_file_block with
  | .error _ => .ok ⟨0, 1, 0, true, none⟩
  | .ok data =>
  let data_offset := dst_file_block.offset - virt_src_file_block.offset
  match slice data data_offset (data_offset + dst_file_block.size) with
  | none => .error "slice index out of range"
  | some sliced =>
  if sha1 sliced = missing_hash then
    if fs.writable dst_filename then
      .ok ⟨1, 0, 0, true, some (dst_filename, dst_file_block, sliced)⟩
    else .error ("Can not open file " ++ dst_filename)
  else .ok ⟨0, 0, 0, true, none⟩

/-- The `'missing_pieces_loop` itself over a list of missing piece
indices: run `merge_step` on each index in order, collecting the
per-iteration effects; the first abort (panic) stops the run. -/
def run_pieces (sha1 : List Nat → Digest) (fs : FS)
    (src_torrent dst_torrent : Torrent)
    (same_files : List (List String × List String)) (dst_filename : String) :
    List Nat → Except String (List StepResult)
  | [] => .ok []
  | i :: rest =>
      match merge_step sha1 fs src_torrent dst_torrent same_files dst_filename i with
      | .error e => .error e
      | .ok r =>
          match run_pieces sha1 fs src_torrent dst_torrent same_files dst_filename rest with
          | .error e => .error e
          | .ok rs => .ok (r :: rs)

/-- Modelled from the spec's words (claim C1), for comparison with
`get_missing_pieces`: the physical piece indices whose logical byte
range `[idx * piece_size, (idx + 1) * piece_size)` overlaps the named
file's byte range and whose recorded state is not `Downloaded`. -/
def spec_missing_pieces (torrent : Torrent) (path : String) : List Nat :=
  let p := torrent.piece_size
  let fo := (get_file_offset torrent.content path).toOption.getD 0
  let fsz :=
    ((torrent.content.find? (fun f => f.name == path)).map (fun f => f.size)).getD 0
  (List.range torrent.pieces_states.length).filter
    (fun idx =>
      decide (idx * p < fo + fsz) && decide (fo < (idx + 1) * p) &&
      decide (torrent.pieces_states.get? idx ≠ some PieceState.Downloaded))

/-- The piece list described by the spec for `file_block_to_pieces`: all
indices in `[o / p, div_ceil (o + size) p)`, each carrying piece size
`p`, where `o` is the block's absolute offset in the logical stream. -/
def piece_range (p o size : Nat) : List TorrentPiece :=
  (List.range' (o / p) (div_ceil (o + size) p - o / p)).map (fun idx => ⟨idx, p⟩)

/-- A digest function for concrete test inputs: the bytes themselves.
`merge_step` only ever compares digests for equality, so any concrete
function exercises the same control flow as SHA-1. -/
def idDigest : List Nat → Digest := fun l => l

/-- A file system on which every open fails. -/
def fsNone : FS := ⟨fun _ => none, fun _ => false⟩

/-- A file system holding one readable source file `s` with bytes
`[1, 2, 3, 4]`; nothing is writable. -/
def fsReadOnly : FS :=
  ⟨fun s => if s = "s" then some [1, 2, 3, 4] else none, fun _ => false⟩

/-- Like `fsReadOnly`, but every file opens for writing. -/
def fsReadWrite : FS :=
  ⟨fun s => if s = "s" then some [1, 2, 3, 4] else none, fun _ => true⟩

/-- A one-file source torrent whose single piece is downloaded. -/
def srcOneDone : Torrent := ⟨4, [⟨"s", 4⟩], [.Downloaded], []⟩

/-- A destination torrent with an empty content list but one recorded
piece hash: `piece_to_file_block` fails on it. -/
def dstNoContent : Torrent := ⟨4, [], [], [[1]]⟩

/-- A one-file destination torrent with one missing piece whose expected
hash is `[1, 2, 3, 4]` (the bytes of `fsReadOnly`'s file `s` under
`idDigest`). -/
def dstOneMissing : Torrent := ⟨4, [⟨"d", 4⟩], [.NotDownloaded], [[1, 2, 3, 4]]⟩

/-- The matched-size group pairing source file `s` with destination
file `d`. -/
def sameSD : List (List String × List String) := [(["s"], ["d"])]

/-- A two-piece source torrent (piece size 4) for a destination torrent
of piece size 8: neither source piece is downloaded. -/
def srcTwoMissing : Torrent := ⟨4, [⟨"s", 8⟩], [.NotDownloaded, .NotDownloaded], []⟩

/-- A one-file destination torrent of piece size 8 with one missing
piece. -/
def dstWide : Torrent := ⟨8, [⟨"d", 8⟩], [.NotDownloaded], [[1]]⟩

/-- Two adjacent files of one piece each, nothing downloaded: the input
on which `get_missing_pieces` disagrees with the spec's overlap set. -/
def twoFileTorrent : Torrent :=
  ⟨4, [⟨"a", 4⟩, ⟨"b", 4⟩], [.NotDownloaded, .NotDownloaded], []⟩

/-- A torrent whose two files share one name: the input on which the
mapping round trip loses the piece index. -/
def dupNameTorrent : Torrent := ⟨4, [⟨"a", 4⟩, ⟨"a", 4⟩], [], []⟩

/-- A two-file torrent (sizes 3 and 10, piece size 4) for exercising
`file_block_to_pieces` on an unaligned file start. -/
def unalignedTorrent : Torrent := ⟨4, [⟨"x", 3⟩, ⟨"y", 10⟩], [], []⟩

/-- C10: `piece_is_downloaded` is total: out-of-range indices yield
`false` rather than a failure, and the result is `true` exactly when the
index is in range of `pieces_states` and the recorded state is
`Downloaded`. -/
theorem piece_is_downloaded_total (t : Torrent) (pc : TorrentPiece) :
    (t.pieces_states.length ≤ pc.idx → t.piece_is_downloaded pc = false) ∧
    (t.piece_is_downloaded pc = true ↔
      pc.idx < t.pieces_states.length ∧
        t.pieces_states.get? pc.idx = some PieceState.Downloaded) := by
  constructor
  · intro h
    unfold Torrent.piece_is_downloaded
    rw [List.get?_eq_none.mpr h]
  · unfold Torrent.piece_is_downloaded
    cases hg : t.pieces_states.get? pc.idx with
    | none =>
        simp only [List.get?_eq_none] at hg
        simp [hg]
    | some s =>
        have hlt : pc.idx < t.pieces_states.length := by
          by_contra hle
          rw [List.get?_eq_none.mpr (Nat.le_of_not_lt hle)] at hg
          exact Option.noConfusion hg
        cases s <;> simp [hg, hlt]

/-- Witness for C10 at a concrete snapshot: index 5 is out of range of
the one-piece state list (result `false`), index 0 is in range and
`Downloaded` (result `true`). -/
theorem piece_is_downloaded_total_witness :
    Torrent.piece_is_downloaded srcOneDone ⟨5, 4⟩ = false ∧
    Torrent.piece_is_downloaded srcOneDone ⟨0, 4⟩ = true :=
  ⟨(piece_is_downloaded_total srcOneDone ⟨5, 4⟩).1 (by decide),
   (piece_is_downloaded_total srcOneDone ⟨0, 4⟩).2.mpr ⟨by decide, by decide⟩⟩

/-- C9: when the merged source block contains the destination block and
the read buffer has the merged block's length, the local-offset
subtraction does not underflow (`virt.offset ≤ dst.offset`) and the
destination sub-range extraction from the buffer is in bounds, so it
cannot fail. -/
theorem contains_extraction_safe (virt dst : FileBlock) (data : List Nat)
    (hc : virt.contains dst = true) (hlen : data.length = virt.size) :
    virt.offset ≤ dst.offset ∧
    (slice data (dst.offset - virt.offset)
      (dst.offset - virt.offset + dst.size)).isSome = true := by
  have h1 : virt.offset ≤ dst.offset ∧ dst.offset + dst.size ≤ virt.offset + virt.size := by
    have := hc
    simp only [FileBlock.contains, Bool.and_eq_true, decide_eq_true_eq] at this
    omega
  refine ⟨h1.1, ?_⟩
  have hcond : dst.offset - virt.offset ≤ dst.offset - virt.offset + dst.size ∧
      dst.offset - virt.offset + dst.size ≤ data.length := by omega
  simp [slice, hcond.1, hcond.2]

/-- Witness for C9: block `(1, 2)` inside block `(0, 4)` with a 4-byte
buffer; the subtraction and the slice both stay in bounds. -/
theorem contains_extraction_safe_witness :
    FileBlock.contains ⟨0, 4⟩ ⟨1, 2⟩ = true ∧
    ((0 : Nat) ≤ 1 ∧ (slice [1, 2, 3, 4] (1 - 0) (1 - 0 + 2)).isSome = true) :=
  ⟨by decide, contains_extraction_safe ⟨0, 4⟩ ⟨1, 2⟩ [1, 2, 3, 4] (by decide) (by decide)⟩

/-- C8: merging a non-empty contiguous run of pieces with identical
piece size `p` starting at index `i` yields a `VirtualPiece` with
offset `i * p` and size `length * p`; merging the empty list yields
`none`. -/
theorem merge_contiguous_run :
    (∀ (l : List TorrentPiece) (i p : Nat), 0 < l.length →
      (∀ j, j < l.length → l.get? j = some ⟨i + j, p⟩) →
      TorrentPiece.merge l = some ⟨i * p, l.length * p⟩) ∧
    TorrentPiece.merge [] = none := by
  constructor
  · intro l i p hl hj
    cases l with
    | nil => simp at hl
    | cons a l' =>
        have h0 := hj 0 (by simp)
        simp only [List.get?, Option.some.injEq] at h0
        subst h0
        simp [TorrentPiece.merge, List.get?]
  · rfl

/-- Witness for C8: merging the contiguous run `[2, 3]` of piece size 4
gives the virtual piece at offset 8 of size 8. -/
theorem merge_contiguous_run_witness :
    TorrentPiece.merge [⟨2, 4⟩, ⟨3, 4⟩] = some ⟨8, 8⟩ :=
  merge_contiguous_run.1 [⟨2, 4⟩, ⟨3, 4⟩] 2 4 (by decide) (by decide)

/-- C5: when at least one source piece required for the destination
piece is not `Downloaded`, the loop body performs no file read and no
file write and contributes exactly 1 to the unavailable counter (not one
per undownloaded source piece), then continues with the next piece. -/
theorem unavailable_source_skips (sha1 : List Nat → Digest) (fs : FS)
    (src dst : Torrent) (same : List (List String × List String))
    (dstname : String) (i : Nat) (mh : Digest) (fn : String) (dfb : FileBlock)
    (sn : String) (ps : List TorrentPiece)
    (h1 : dst.pieces_hashes.get? i = some mh)
    (h2 : piece_to_file_block dst (.TorrentPiece ⟨i, dst.piece_size⟩) = .ok (fn, dfb))
    (h3 : convert_filename same fn = .ok sn)
    (h4 : file_block_to_pieces src sn dfb = .ok ps)
    (h5 : ps.any (fun p => ! src.piece_is_downloaded p) = true) :
    merge_step sha1 fs src dst same dstname i = .ok ⟨0, 1, 0, false, none⟩ := by
  simp only [merge_step, h1, h2, h3, h4, h5, if_true]

/-- Witness for C5 at a concrete state: the destination piece (size 8)
needs two source pieces (size 4), both undownloaded; the step reads
nothing, writes nothing, and adds exactly 1 to the unavailable
counter. -/
theorem unavailable_source_skips_witness :
    merge_step idDigest fsReadWrite srcTwoMissing dstWide sameSD "d" 0 =
      .ok ⟨0, 1, 0, false, none⟩ :=
  unavailable_source_skips idDigest fsReadWrite srcTwoMissing dstWide sameSD "d" 0
    [1] "d" ⟨0, 8⟩ "s" [⟨0, 4⟩, ⟨1, 4⟩] rfl rfl rfl rfl rfl

/-- C4: once the loop body reaches the hash comparison (all source
pieces downloaded, files open, containment holds, read and extraction
succeed), bytes are written to the destination file exactly when the
digest of the extracted slice equals the destination piece's expected
hash; on a match the restored counter gains exactly 1, on a mismatch
nothing is written and none of the three counters changes. -/
theorem hash_gate (sha1 : List Nat → Digest) (fs : FS)
    (src dst : Torrent) (same : List (List String × List String))
    (dstname : String) (i : Nat) (mh : Digest) (fn : String) (dfb : FileBlock)
    (sn : String) (ps : List TorrentPiece) (data0 : List Nat) (v : VirtualPiece)
    (fn2 : String) (vfb : FileBlock) (data sl : List Nat)
    (h1 : dst.pieces_hashes.get? i = some mh)
    (h2 : piece_to_file_block dst (.TorrentPiece ⟨i, dst.piece_size⟩) = .ok (fn, dfb))
    (h3 : convert_filename same fn = .ok sn)
    (h4 : file_block_to_pieces src sn dfb = .ok ps)
    (h5 : ps.any (fun p => ! src.piece_is_downloaded p) = false)
    (h6 : fs.files sn = some data0)
    (h7 : TorrentPiece.merge ps = some v)
    (h8 : piece_to_file_block src (.VirtualPiece v) = .ok (fn2, vfb))
    (h9 : vfb.contains dfb = true)
    (h10 : read_piece data0 vfb = .ok data)
    (h11 : slice data (dfb.offset - vfb.offset)
            (dfb.offset - vfb.offset + dfb.size) = some sl)
    (h12 : fs.writable dstname = true) :
    (sha1 sl = mh →
      merge_step sha1 fs src dst same dstname i =
        .ok ⟨1, 0, 0, true, some (dstname, dfb, sl)⟩) ∧
    (sha1 sl ≠ mh →
      merge_step sha1 fs src dst same dstname i = .ok ⟨0, 0, 0, true, none⟩) := by
  constructor
  · intro hm
    simp only [merge_step, h1, h2, h3, h4, h5, h6, h7, h8, h9, h10, h11, h12,
      Bool.not_true, Bool.false_eq_true, if_false, if_pos hm, if_true]
  · intro hm
    simp only [merge_step, h1, h2, h3, h4, h5, h6, h7, h8, h9, h10, h11,
      Bool.not_true, Bool.false_eq_true, if_false, if_neg hm]

/-- Witness for C4 at a concrete state where every stage succeeds and
the digest matches: the step writes the extracted bytes to the
destination block and adds exactly 1 to the restored counter. -/
theorem hash_gate_witness :
    merge_step idDigest fsReadWrite srcOneDone dstOneMissing sameSD "d" 0 =
      .ok ⟨1, 0, 0, true, some ("d", ⟨0, 4⟩, [1, 2, 3, 4])⟩ :=
  (hash_gate idDigest fsReadWrite srcOneDone dstOneMissing sameSD "d" 0
    [1, 2, 3, 4] "d" ⟨0, 4⟩ "s" [⟨0, 4⟩] [1, 2, 3, 4] ⟨0, 4⟩ "s" ⟨0, 4⟩
    [1, 2, 3, 4] [1, 2, 3, 4]
    rfl rfl rfl rfl rfl rfl rfl rfl rfl rfl rfl rfl).1 rfl

/-- C2 (amended): a failure of `piece_to_file_block` or
`file_block_to_pieces` inside the per-piece loop is unwrapped by the
source, i.e. it panics: the loop body aborts and `run_pieces` stops at
that piece, never reaching the remaining ones.  Only a
`convert_filename` failure is skipped-and-continued. -/
theorem mapping_failure_aborts (sha1 : List Nat → Digest) (fs : FS)
    (src dst : Torrent) (same : List (List String × List String))
    (dstname : String) (i : Nat) (mh : Digest) (e : String)
    (h1 : dst.pieces_hashes.get? i = some mh) :
    (piece_to_file_block dst (.TorrentPiece ⟨i, dst.piece_size⟩) = .error e →
      merge_step sha1 fs src dst same dstname i = .error e) ∧
    (∀ fn dfb sn,
      piece_to_file_block dst (.TorrentPiece ⟨i, dst.piece_size⟩) = .ok (fn, dfb) →
      convert_filename same fn = .ok sn →
      file_block_to_pieces src sn dfb = .error e →
      merge_step sha1 fs src dst same dstname i = .error e) ∧
    (∀ rest msg, merge_step sha1 fs src dst same dstname i = .error msg →
      run_pieces sha1 fs src dst same dstname (i :: rest) = .error msg) := by
  refine ⟨?_, ?_, ?_⟩
  · intro h
    simp only [merge_step, h1, h]
  · intro fn dfb sn h2 h3 h4
    simp only [merge_step, h1, h2, h3, h4]
  · intro rest msg hm
    simp only [run_pieces, hm]

/-- Witness for C2's amended statement: on a destination snapshot whose
content list is empty, `piece_to_file_block` fails e and the loop body
and the whole run abort with that error. -/
theorem mapping_failure_aborts_witness :
    merge_step idDigest fsNone srcOneDone dstNoContent [] "d" 0 =
      .error "Piece outside of torrent" ∧
    run_pieces idDigest fsNone srcOneDone dstNoContent [] "d" [0, 1] =
      .error "Piece outside of torrent" := by
  have h := mapping_failure_aborts idDigest fsNone srcOneDone dstNoContent [] "d" 0
    [1] "Piece outside of torrent" rfl
  exact ⟨h.1 rfl, h.2.2 [1] _ (h.1 rfl)⟩

/-- Counterexample to C2 as stated: on this concrete input the mapping
operation `piece_to_file_block` fails, and instead of skipping the piece
and continuing, the loop body and the run over pieces `[0, 1]` abort
with the error (piece 1 is never processed). -/
theorem mapping_failure_aborts_cex :
    piece_to_file_block dstNoContent (.TorrentPiece ⟨0, 4⟩) =
      .error "Piece outside of torrent" ∧
    merge_step idDigest fsNone srcOneDone dstNoContent [] "d" 0 =
      .error "Piece outside of torrent" ∧
    run_pieces idDigest fsNone srcOneDone dstNoContent [] "d" [0, 1] =
      .error "Piece outside of torrent" :=
  ⟨rfl, rfl, rfl⟩

/-- C3 (amended): a failure to open the source file
(`get_read_file(..).unwrap_or_else(panic)`) or the destination file
(`get_write_file(..).unwrap_or_else(panic)`) inside the per-piece loop
panics: the loop body aborts and `run_pieces` stops there, rather than
the failure being fatal only for the current piece. -/
theorem open_failure_aborts (sha1 : List Nat → Digest) (fs : FS)
    (src dst : Torrent) (same : List (List String × List String))
    (dstname : String) (i : Nat) (mh : Digest) (fn : String) (dfb : FileBlock)
    (sn : String) (ps : List TorrentPiece)
    (h1 : dst.pieces_hashes.get? i = some mh)
    (h2 : piece_to_file_block dst (.TorrentPiece ⟨i, dst.piece_size⟩) = .ok (fn, dfb))
    (h3 : convert_filename same fn = .ok sn)
    (h4 : file_block_to_pieces src sn dfb = .ok ps)
    (h5 : ps.any (fun p => ! src.piece_is_downloaded p) = false) :
    (fs.files sn = none →
      merge_step sha1 fs src dst same dstname i =
        .error ("Can not open file " ++ sn)) ∧
    (∀ data0 v fn2 vfb data sl,
      fs.files sn = some data0 →
      TorrentPiece.merge ps = some v →
      piece_to_file_block src (.VirtualPiece v) = .ok (fn2, vfb) →
      vfb.contains dfb = true →
      read_piece data0 vfb = .ok data →
      slice data (dfb.offset - vfb.offset)
        (dfb.offset - vfb.offset + dfb.size) = some sl →
      sha1 sl = mh →
      fs.writable dstname = false →
      merge_step sha1 fs src dst same dstname i =
        .error ("Can not open file " ++ dstname)) ∧
    (∀ rest msg, merge_step sha1 fs src dst same dstname i = .error msg →
      run_pieces sha1 fs src dst same dstname (i :: rest) = .error msg) := by
  refine ⟨?_, ?_, ?_⟩
  · intro h6
    simp only [merge_step, h1, h2, h3, h4, h5, h6, Bool.false_eq_true, if_false]
  · intro data0 v fn2 vfb data sl h6 h7 h8 h9 h10 h11 hm h12
    simp only [merge_step, h1, h2, h3, h4, h5, h6, h7, h8, h9, h10, h11, h12,
      Bool.not_true, Bool.false_eq_true, if_false, if_pos hm]
  · intro rest msg hm
    simp only [run_pieces, hm]

/-- Witness for C3's amended statement: a source-file open failure and a
destination-file open failure each abort the loop body with the
open-error naming the file. -/
theorem open_failure_aborts_witness :
    merge_step idDigest fsNone srcOneDone dstOneMissing sameSD "d" 0 =
      .error ("Can not open file " ++ "s") ∧
    merge_step idDigest fsReadOnly srcOneDone dstOneMissing sameSD "d" 0 =
      .error ("Can not open file " ++ "d") := by
  constructor
  · exact (open_failure_aborts idDigest fsNone srcOneDone dstOneMissing sameSD "d" 0
      [1, 2, 3, 4] "d" ⟨0, 4⟩ "s" [⟨0, 4⟩] rfl rfl rfl rfl rfl).1 rfl
  · exact (open_failure_aborts idDigest fsReadOnly srcOneDone dstOneMissing sameSD "d" 0
      [1, 2, 3, 4] "d" ⟨0, 4⟩ "s" [⟨0, 4⟩] rfl rfl rfl rfl rfl).2.1
      [1, 2, 3, 4] ⟨0, 4⟩ "s" ⟨0, 4⟩ [1, 2, 3, 4] [1, 2, 3, 4]
      rfl rfl rfl rfl rfl rfl rfl rfl

/-- Counterexample to C3 as stated: on this concrete input opening the
source file fails, and the engine does not proceed to the next piece:
the loop body and the run over pieces `[0, 1]` abort (piece 1 is never
processed). -/
theorem open_failure_aborts_cex :
    fsNone.files "s" = none ∧
    merge_step idDigest fsNone srcOneDone dstOneMissing sameSD "d" 0 =
      .error "Can not open file s" ∧
    run_pieces idDigest fsNone srcOneDone dstOneMissing sameSD "d" [0, 1] =
      .error "Can not open file s" :=
  ⟨rfl, rfl, rfl⟩

/-- C1 (amended): for a file name present in the content list,
`get_missing_pieces` returns exactly the piece indices `idx` of
`pieces_states` whose state is not `Downloaded` and that satisfy
`file_offset / piece_size ≤ idx ≤ file_offset / piece_size + file_size / piece_size`
(integer division); this interval can include one trailing piece that
does not overlap the file, and can omit the file's last overlapping
piece when the file's start offset and size both leave remainders
summing past the piece size. -/
theorem get_missing_pieces_mem (t : Torrent) (path : String) (fo : Nat)
    (f : TorrentContent)
    (hfo : get_file_offset t.content path = .ok fo)
    (hf : t.content.find? (fun g => g.name == path) = some f) (idx : Nat) :
    idx ∈ get_missing_pieces t path ↔
      (∃ s, t.pieces_states.get? idx = some s ∧ s ≠ PieceState.Downloaded) ∧
      fo / t.piece_size ≤ idx ∧
      idx ≤ fo / t.piece_size + f.size / t.piece_size := by
  simp only [get_missing_pieces, hfo, hf, Except.toOption, Option.getD, Option.map,
    List.mem_filterMap]
  constructor
  · rintro ⟨⟨j, s⟩, hmem, hif⟩
    have hg : t.pieces_states.get? j = some s := by
      simpa using List.mk_mem_enum_iff_getElem?.mp hmem
    by_cases hcond : fo / t.piece_size ≤ j ∧
        j ≤ fo / t.piece_size + f.size / t.piece_size ∧ s ≠ PieceState.Downloaded
    · rw [if_pos hcond] at hif
      obtain rfl : j = idx := Option.some.injEq _ _ ▸ hif
      exact ⟨⟨s, hg, hcond.2.2⟩, hcond.1, hcond.2.1⟩
    · rw [if_neg hcond] at hif
      exact Option.noConfusion hif
  · rintro ⟨⟨s, hg, hs⟩, h1, h2⟩
    exact ⟨(idx, s), List.mk_mem_enum_iff_getElem?.mpr (by simpa using hg),
      by rw [if_pos ⟨h1, h2, hs⟩]⟩

/-- Witness for C1's amended statement: in `twoFileTorrent`, index 1
(the piece just past file `a`) is produced for file `a` because it lies
within the inclusive index interval, even though its byte range does not
overlap the file. -/
theorem get_missing_pieces_mem_witness :
    1 ∈ get_missing_pieces twoFileTorrent "a" :=
  (get_missing_pieces_mem twoFileTorrent "a" 0 ⟨"a", 4⟩ rfl rfl 1).mpr
    ⟨⟨PieceState.NotDownloaded, rfl, by decide⟩, by decide, by decide⟩

/-- Counterexample to C1 as stated: for file `a` (bytes `[0, 4)`) of
`twoFileTorrent`, the code returns indices `[0, 1]`, but piece 1 covers
bytes `[4, 8)`, which do not overlap the file; the set of overlapping
undownloaded pieces is `[0]`. -/
theorem get_missing_pieces_cex :
    get_missing_pieces twoFileTorrent "a" = [0, 1] ∧
    spec_missing_pieces twoFileTorrent "a" = [0] :=
  ⟨rfl, rfl⟩

/-- A successful file walk returns the name of one of the walked
files. -/
theorem walk_files_name_mem (files : List TorrentContent) :
    ∀ (off size : Nat) (fn : String) (fb : FileBlock),
      walk_files files off size = .ok (fn, fb) →
      fn ∈ files.map (fun f => f.name) := by
  induction files with
  | nil =>
      intro off size fn fb h
      simp [walk_files] at h
  | cons f rest ih =>
      intro off size fn fb h
      simp only [walk_files] at h
      split at h
      · simp only [Except.ok.injEq, Prod.mk.injEq] at h
        simp [← h.1]
      · simpa using Or.inr (ih _ _ _ _ h)

/-- With a positive piece size, the upper piece index computed by
`file_block_to_pieces` for a block of exactly one piece strictly exceeds
the lower one. -/
theorem div_ceil_piece_succ (o p : Nat) (hp : 0 < p) :
    o / p + 1 ≤ div_ceil (o + p) p := by
  unfold div_ceil
  have h1 : o + p + p - 1 = (o + p - 1) + p := by omega
  rw [h1, Nat.add_div_right _ hp]
  have h2 : o / p ≤ (o + p - 1) / p := Nat.div_le_div_right (by omega)
  omega

/-- Round-trip core: if the file walk starting at logical offset `off`
finds `(fn, fb)`, and the walked names are distinct, then the reverse
mapping started with accumulated offset `acc` succeeds and its piece
list contains the index `(acc + off) / p`. -/
theorem walk_roundtrip (files : List TorrentContent) :
    ∀ (off p acc : Nat) (fn : String) (fb : FileBlock),
      0 < p →
      (files.map (fun f => f.name)).Nodup →
      walk_files files off p = .ok (fn, fb) →
      ∃ ps, file_block_to_pieces_go p files fn fb acc = .ok ps ∧
        (⟨(acc + off) / p, p⟩ : TorrentPiece) ∈ ps := by
  induction files with
  | nil =>
      intro off p acc fn fb hp hnd h
      simp [walk_files] at h
  | cons f rest ih =>
      intro off p acc fn fb hp hnd h
      simp only [walk_files] at h
      by_cases hlt : off < f.size
      · rw [if_pos hlt] at h
        simp only [Except.ok.injEq, Prod.mk.injEq] at h
        obtain ⟨hfn, hfb⟩ := h
        subst hfn
        subst hfb
        refine ⟨(List.range' ((acc + off) / p)
            (div_ceil (acc + off + p) p - (acc + off) / p)).map
            (fun idx => (⟨idx, p⟩ : TorrentPiece)), ?_, ?_⟩
        · simp only [file_block_to_pieces_go]
          rw [if_pos trivial, if_neg (by show ¬ off > f.size; omega)]
        · have hend := div_ceil_piece_succ (acc + off) p hp
          simp only [List.mem_map]
          refine ⟨(acc + off) / p, ?_, rfl⟩
          rw [List.mem_range'_1]
          omega
      · rw [if_neg hlt] at h
        have hfn : ¬ f.name = fn := by
          intro hEq
          have hmem := walk_files_name_mem rest _ _ _ _ h
          rw [List.map_cons, List.nodup_cons] at hnd
          exact hnd.1 (hEq ▸ hmem)
        obtain ⟨ps, hps, hmem⟩ :=
          ih (off - f.size) p (acc + f.size) fn fb hp
            (by rw [List.map_cons, List.nodup_cons] at hnd; exact hnd.2) h
        refine ⟨ps, ?_, ?_⟩
        · simp only [file_block_to_pieces_go]
          rw [if_neg hfn]
          exact hps
        · have heq : acc + f.size + (off - f.size) = acc + off := by omega
          rwa [heq] at hmem

/-- C6 (amended): in a torrent layout with a positive piece size and
pairwise-distinct file names, mapping a valid physical piece to its file
block and mapping that block back yields a piece list containing the
original index. -/
theorem roundtrip_contains_index (t : Torrent) (i : Nat) (fn : String)
    (fb : FileBlock)
    (hp : 0 < t.piece_size)
    (hnd : (t.content.map (fun f => f.name)).Nodup)
    (h : piece_to_file_block t (.TorrentPiece ⟨i, t.piece_size⟩) = .ok (fn, fb)) :
    ∃ ps, file_block_to_pieces t fn fb = .ok ps ∧
      (⟨i, t.piece_size⟩ : TorrentPiece) ∈ ps := by
  have h' : walk_files t.content (i * t.piece_size) t.piece_size = .ok (fn, fb) := h
  obtain ⟨ps, hps, hmem⟩ :=
    walk_roundtrip t.content (i * t.piece_size) t.piece_size 0 fn fb hp hnd h'
  refine ⟨ps, hps, ?_⟩
  have heq : (0 + i * t.piece_size) / t.piece_size = i := by
    rw [Nat.zero_add, Nat.mul_div_cancel _ hp]
  rwa [heq] at hmem

/-- Witness for C6's amended statement: piece 1 of `twoFileTorrent`
maps to block `(0, 4)` of file `b`, and the reverse mapping contains
piece index 1. -/
theorem roundtrip_contains_index_witness :
    ∃ ps, file_block_to_pieces twoFileTorrent "b" ⟨0, 4⟩ = .ok ps ∧
      (⟨1, 4⟩ : TorrentPiece) ∈ ps :=
  roundtrip_contains_index twoFileTorrent 1 "b" ⟨0, 4⟩ (by decide) (by decide) rfl

/-- Counterexample to C6 as stated: in a layout whose two one-piece
files share the name `a`, piece 1 maps to block `(0, 4)` of `a`, but the
reverse mapping resolves `a` to the first file and returns only piece 0:
the round trip loses index 1. -/
theorem roundtrip_contains_index_cex :
    piece_to_file_block dupNameTorrent (.TorrentPiece ⟨1, 4⟩) =
      .ok ("a", ⟨0, 4⟩) ∧
    file_block_to_pieces dupNameTorrent "a" ⟨0, 4⟩ = .ok [⟨0, 4⟩] ∧
    (⟨1, 4⟩ : TorrentPiece) ∉ ([⟨0, 4⟩] : List TorrentPiece) :=
  ⟨rfl, rfl, by decide⟩

/-- `file_block_to_pieces_go` on a list split around the first file
named `path`, with the block offset within that file: the result is the
piece range starting from the accumulated offset plus the sizes of the
preceding files. -/
theorem fbtp_go_found (pre : List TorrentContent) :
    ∀ (f : TorrentContent) (post : List TorrentContent) (p : Nat)
      (path : String) (fb : FileBlock) (acc : Nat),
      (∀ g ∈ pre, g.name ≠ path) → f.name = path → fb.offset ≤ f.size →
      file_block_to_pieces_go p (pre ++ f :: post) path fb acc =
        .ok (piece_range p (acc + (pre.map (fun g => g.size)).sum + fb.offset)
              fb.size) := by
  induction pre with
  | nil =>
      intro f post p path fb acc hpre hf hoff
      simp only [List.nil_append, file_block_to_pieces_go]
      rw [if_pos hf, if_neg (by omega)]
      simp [piece_range]
  | cons g pre ih =>
      intro f post p path fb acc hpre hf hoff
      simp only [List.cons_append, file_block_to_pieces_go]
      rw [if_neg (hpre g (by simp))]
      rw [List.append_eq, ih f post p path fb (acc + g.size)
        (fun x hx => hpre x (by simp [hx])) hf hoff]
      rw [List.map_cons, List.sum_cons, ← Nat.add_assoc]

/-- `file_block_to_pieces_go` when no file in the list is named `path`:
the file-not-found error. -/
theorem fbtp_go_not_found (files : List TorrentContent) :
    ∀ (p : Nat) (path : String) (fb : FileBlock) (acc : Nat),
      (∀ g ∈ files, g.name ≠ path) →
      file_block_to_pieces_go p files path fb acc =
        .error ("File not found " ++ path) := by
  induction files with
  | nil => intro p path fb acc h; rfl
  | cons f rest ih =>
      intro p path fb acc h
      simp only [file_block_to_pieces_go]
      rw [if_neg (h f (by simp))]
      exact ih p path fb (acc + f.size) (fun x hx => h x (by simp [hx]))

/-- `file_block_to_pieces_go` when the block offset exceeds the size of
the first file named `path`: the offset-beyond-file error. -/
theorem fbtp_go_offset_err (pre : List TorrentContent) :
    ∀ (f : TorrentContent) (post : List TorrentContent) (p : Nat)
      (path : String) (fb : FileBlock) (acc : Nat),
      (∀ g ∈ pre, g.name ≠ path) → f.name = path → f.size < fb.offset →
      file_block_to_pieces_go p (pre ++ f :: post) path fb acc =
        .error ("Offset beyond file " ++ toString fb.offset ++ " " ++ path) := by
  induction pre with
  | nil =>
      intro f post p path fb acc hpre hf hoff
      simp only [List.nil_append, file_block_to_pieces_go]
      rw [if_pos hf, if_pos (by omega)]
  | cons g pre ih =>
      intro f post p path fb acc hpre hf hoff
      simp only [List.cons_append, file_block_to_pieces_go]
      rw [if_neg (hpre g (by simp)), List.append_eq]
      exact ih f post p path fb (acc + g.size)
        (fun x hx => hpre x (by simp [hx])) hf hoff

/-- C7: with a positive piece size, `file_block_to_pieces` returns the
pieces with indices in
`[(file_start + fb.offset) / p, div_ceil (file_start + fb.offset + fb.size) p)`
(floor and ceiling division), each carrying the torrent's piece size,
where `file_start` is the sum of the sizes of the files preceding the
named file; it fails with the file-not-found error when no file has the
given name, and with the offset-beyond-file error when the block's
offset exceeds the named file's size. -/
theorem file_block_to_pieces_spec (t : Torrent) (path : String)
    (fb : FileBlock) (hp : 0 < t.piece_size) :
    (∀ pre f post, t.content = pre ++ f :: post →
      (∀ g ∈ pre, g.name ≠ path) → f.name = path →
      (fb.offset ≤ f.size →
        file_block_to_pieces t path fb =
          .ok (piece_range t.piece_size
                ((pre.map (fun g => g.size)).sum + fb.offset) fb.size)) ∧
      (f.size < fb.offset →
        file_block_to_pieces t path fb =
          .error ("Offset beyond file " ++ toString fb.offset ++ " " ++ path))) ∧
    ((∀ g ∈ t.content, g.name ≠ path) →
      file_block_to_pieces t path fb = .error ("File not found " ++ path)) := by
  constructor
  · intro pre f post hsplit hpre hf
    constructor
    · intro hoff
      unfold file_block_to_pieces
      rw [hsplit, fbtp_go_found pre f post t.piece_size path fb 0 hpre hf hoff,
        Nat.zero_add]
    · intro hoff
      unfold file_block_to_pieces
      rw [hsplit]
      exact fbtp_go_offset_err pre f post t.piece_size path fb 0 hpre hf hoff
  · intro h
    unfold file_block_to_pieces
    exact fbtp_go_not_found t.content t.piece_size path fb 0 h

/-- Witness for C7 on `unalignedTorrent` (files `x` of size 3 and `y` of
size 10, piece size 4): block `(1, 5)` of `y` yields pieces 1 and 2;
a name not in the list yields file-not-found; block offset 4 in the
3-byte file `x` yields offset-beyond-file. -/
theorem file_block_to_pieces_spec_witness :
    file_block_to_pieces unalignedTorrent "y" ⟨1, 5⟩ =
      .ok [⟨1, 4⟩, ⟨2, 4⟩] ∧
    file_block_to_pieces unalignedTorrent "z" ⟨0, 1⟩ =
      .error ("File not found " ++ "z") ∧
    file_block_to_pieces unalignedTorrent "x" ⟨4, 1⟩ =
      .error ("Offset beyond file " ++ toString (4 : Nat) ++ " " ++ "x") := by
  refine ⟨?_, ?_, ?_⟩
  · have h := (((file_block_to_pieces_spec unalignedTorrent "y" ⟨1, 5⟩
      (by decide)).1 [⟨"x", 3⟩] ⟨"y", 10⟩ [] rfl (by decide) rfl).1 (by decide))
    rw [h]
    rfl
  · exact (file_block_to_pieces_spec unalignedTorrent "z" ⟨0, 1⟩ (by decide)).2
      (by decide)
  · exact ((file_block_to_pieces_spec unalignedTorrent "x" ⟨4, 1⟩
      (by decide)).1 [] ⟨"x", 3⟩ [⟨"y", 10⟩] rfl (by simp) rfl).2 (by decide)

end QbtMerge
